import Mathlib

/-!
wepoll: the port (`src/port.c`)

A shallow embedding of `src/port.c`.  The port owns a socket registry
(`sock_tree`), an update queue (`update_queue`), the completion handle
(`iocp`) and one lazily created poll-group allocator per protocol id
(`poll_group_allocators`).

Pointers are natural numbers (the address), a pointer that may be `NULL`
is an `Option`.  Mutation through `port_info` is explicit state passing:
every function returns the port as it leaves it.  Loops whose termination
depends on a collaborator take a fuel argument and return `none` when the
fuel runs out.

Only `port.c` is part of the sources.  The tree and queue primitives
(`tree.c`, `queue.c`) are modelled from the specification; the socket
collaborator (`epoll-socket.c`), the poll-group allocator (`poll-group.c`)
and `CloseHandle` are parameters of the functions that call them.
-/

namespace Wepoll

/-! ## Data model -/

/-- Address of a socket state object (`ep_sock_t*`). -/
abbrev ep_sock_t := Nat

/-- A socket descriptor (`SOCKET`), the key of the registry. -/
abbrev SOCKET := Nat

/-- An operating-system handle (`HANDLE`). -/
abbrev HANDLE := Nat

/-- Address of a poll-group allocator (`poll_group_allocator_t*`). -/
abbrev poll_group_allocator_t := Nat

/-- Address of a poll group (`poll_group_t*`). -/
abbrev poll_group_t := Nat

/-- Address of a protocol description (`const WSAPROTOCOL_INFOW*`). -/
abbrev WSAPROTOCOL_INFOW := Nat

/-- Address of an `OVERLAPPED` request structure. -/
abbrev OVERLAPPED := Nat

/-- One completion record (`OVERLAPPED_ENTRY`); only `lpOverlapped` is read. -/
structure OVERLAPPED_ENTRY where
  lpOverlapped : OVERLAPPED
deriving DecidableEq

/-- One readiness event (`struct epoll_event`). -/
structure epoll_event where
  events : Nat
  data : Nat
deriving DecidableEq

/-- Modelled from the spec: the ordered map `tree_t` of `tree.c` (not part of
the sources), "an ordered map keyed by socket descriptor".  It is the list of
its nodes in increasing key order; a node is the key together with the socket
state that embeds the node. -/
abbrev tree_t := List (SOCKET × ep_sock_t)

/-- Modelled from the spec: the intrusive FIFO `queue_t` of `queue.c` (not part
of the sources), as the list of the enqueued sockets from head to tail. -/
abbrev queue_t := List ep_sock_t

/-- The port (`ep_port_t`): completion handle, update queue, socket registry
and the allocator table, one slot per protocol id.  The struct is declared in
`port.h` (not part of the sources); these are the fields `port.c` reads and
writes, except `handle_tree_node`, which `port.c` only initialises. -/
structure ep_port_t where
  iocp : Option HANDLE
  update_queue : queue_t
  sock_tree : tree_t
  poll_group_allocators : List (Option poll_group_allocator_t)
deriving DecidableEq

/-! ## Tree and queue primitives (modelled from the spec) -/

/-- Modelled from the spec: `tree_init` of `tree.c`, the empty ordered map. -/
def tree_init : tree_t := []

/-- Modelled from the spec: `tree_add` of `tree.c`, the ordered-map insert:
"insert fails on duplicate key".  The insert walks the nodes in key order; it
returns `-1` and leaves the tree alone when it meets the key, and `0` with the
node linked at its place otherwise. -/
def tree_add : tree_t → ep_sock_t → SOCKET → Int × tree_t
  | [], node, key => (0, [(key, node)])
  | (k, n) :: rest, node, key =>
    if key < k then (0, (key, node) :: (k, n) :: rest)
    else if key = k then (-1, (k, n) :: rest)
    else ((tree_add rest node key).1, (k, n) :: (tree_add rest node key).2)

/-- Modelled from the spec: `tree_del` of `tree.c`: "removes by the socket's
existing registry linkage.  Fails if the linkage is not present."  The socket's
node is unlinked and `0` returned; `-1` when the socket has no node in the
tree. -/
def tree_del (tree : tree_t) (node : ep_sock_t) : Int × tree_t :=
  if tree.any (fun e => e.2 == node) then (0, tree.filter (fun e => e.2 != node))
  else (-1, tree)

/-- Modelled from the spec: `tree_find` of `tree.c`, the ordered-map lookup;
`none` is "not found". -/
def tree_find : tree_t → SOCKET → Option ep_sock_t
  | [], _ => none
  | (k, n) :: rest, key => if key = k then some n else tree_find rest key

/-- Modelled from the spec: `tree_root` of `tree.c`, the "root/minimum element"
of the registry, `none` (`NULL`) when the tree is empty. -/
def tree_root : tree_t → Option ep_sock_t
  | [] => none
  | (_, n) :: _ => some n

/-- Modelled from the spec: `ep_sock_find_in_tree` of `epoll-socket.c`, the
lookup of a socket state by descriptor. -/
def ep_sock_find_in_tree (tree : tree_t) (socket : SOCKET) : Option ep_sock_t :=
  tree_find tree socket

/-- Modelled from the spec: `queue_init` of `queue.c`, the empty queue. -/
def queue_init : queue_t := []

/-- Modelled from the spec: `queue_enqueued` of `queue.c`, the `is-enqueued`
test: "a socket's queue linkage is enqueued iff it is present in this
queue". -/
def queue_enqueued (queue : queue_t) (node : ep_sock_t) : Bool :=
  queue.contains node

/-- Modelled from the spec: `queue_append` of `queue.c`: links the node at the
tail. -/
def queue_append (queue : queue_t) (node : ep_sock_t) : queue_t :=
  queue ++ [node]

/-- Modelled from the spec: `queue_remove` of `queue.c`: unlinks the node "from
wherever it sits in the queue". -/
def queue_remove (queue : queue_t) (node : ep_sock_t) : queue_t :=
  queue.erase node

/-- Modelled from the spec: `queue_empty` of `queue.c`. -/
def queue_empty (queue : queue_t) : Bool :=
  queue.isEmpty

/-- Modelled from the spec: `queue_first` of `queue.c`, the head of the queue,
`none` (`NULL`) when the queue is empty. -/
def queue_first (queue : queue_t) : Option ep_sock_t :=
  queue.head?

/-! ## Port lifecycle -/

/-- The source's `ep_port_new`.  `array_count` is the number of slots of
`poll_group_allocators` (fixed in `port.h`, not part of the sources) and
`alloc_ok` tells whether `malloc` succeeds.  The `memset` leaves every
allocator slot `NULL`. -/
def ep_port_new (array_count : Nat) (alloc_ok : Bool) (iocp : Option HANDLE) :
    Option ep_port_t :=
  if alloc_ok then
    some ⟨iocp, queue_init, tree_init, List.replicate array_count none⟩
  else none

/-- The source's `_ep_port_close_iocp`: nulls the handle field, then closes the
handle.  `CloseHandle` is the operating-system call.  Returns the result, the
port and the handle that was passed to `CloseHandle`. -/
def _ep_port_close_iocp (CloseHandle : Option HANDLE → Bool) (port_info : ep_port_t) :
    Int × ep_port_t × Option HANDLE :=
  let iocp := port_info.iocp
  let port_info := { port_info with iocp := none }
  if !CloseHandle iocp then (-1, port_info, iocp) else (0, port_info, iocp)

/-- The source's `ep_port_close`. -/
def ep_port_close (CloseHandle : Option HANDLE → Bool) (port_info : ep_port_t) :
    Int × ep_port_t × Option HANDLE :=
  _ep_port_close_iocp CloseHandle port_info

/-! ## Socket registration -/

/-- The source's `ep_port_add_socket`. -/
def ep_port_add_socket (port_info : ep_port_t) (sock_info : ep_sock_t) (socket : SOCKET) :
    Int × ep_port_t :=
  ((tree_add port_info.sock_tree sock_info socket).1,
   { port_info with sock_tree := (tree_add port_info.sock_tree sock_info socket).2 })

/-- The source's `ep_port_del_socket`. -/
def ep_port_del_socket (port_info : ep_port_t) (sock_info : ep_sock_t) : Int × ep_port_t :=
  ((tree_del port_info.sock_tree sock_info).1,
   { port_info with sock_tree := (tree_del port_info.sock_tree sock_info).2 })

/-- The source's `ep_port_find_socket`. -/
def ep_port_find_socket (port_info : ep_port_t) (socket : SOCKET) : Option ep_sock_t :=
  ep_sock_find_in_tree port_info.sock_tree socket

/-- A call on the registry: `ep_port_add_socket` or `ep_port_del_socket`. -/
inductive registry_call where
  | add (sock_info : ep_sock_t) (socket : SOCKET)
  | del (sock_info : ep_sock_t)
deriving DecidableEq

/-- One registry call on a port: the value it returns and the port after it. -/
def registry_step (port_info : ep_port_t) : registry_call → Int × ep_port_t
  | .add sock_info socket => ep_port_add_socket port_info sock_info socket
  | .del sock_info => ep_port_del_socket port_info sock_info

/-- The port after a sequence of registry calls, made one after the other. -/
def registry_run (port_info : ep_port_t) (calls : List registry_call) : ep_port_t :=
  calls.foldl (fun p c => (registry_step p c).2) port_info

/-! ## Update schedule -/

/-- The source's `ep_port_is_socket_update_pending`. -/
def ep_port_is_socket_update_pending (port_info : ep_port_t) (sock_info : ep_sock_t) : Bool :=
  queue_enqueued port_info.update_queue sock_info

/-- The source's `ep_port_request_socket_update` (its closing `assert` is
`request_assert_holds` below). -/
def ep_port_request_socket_update (port_info : ep_port_t) (sock_info : ep_sock_t) : ep_port_t :=
  if ep_port_is_socket_update_pending port_info sock_info then port_info
  else { port_info with update_queue := queue_append port_info.update_queue sock_info }

/-- The source's `ep_port_clear_socket_update`. -/
def ep_port_clear_socket_update (port_info : ep_port_t) (sock_info : ep_sock_t) : ep_port_t :=
  if !ep_port_is_socket_update_pending port_info sock_info then port_info
  else { port_info with update_queue := queue_remove port_info.update_queue sock_info }

/-- A call on the update schedule. -/
inductive update_call where
  | request (sock_info : ep_sock_t)
  | clear (sock_info : ep_sock_t)
deriving DecidableEq

/-- One update-schedule call on a port. -/
def update_step (port_info : ep_port_t) : update_call → ep_port_t
  | .request sock_info => ep_port_request_socket_update port_info sock_info
  | .clear sock_info => ep_port_clear_socket_update port_info sock_info

/-- The port after a sequence of update-schedule calls. -/
def update_run (port_info : ep_port_t) (calls : List update_call) : ep_port_t :=
  calls.foldl update_step port_info

/-! ## Draining the update schedule -/

/-- The socket collaborator's `ep_sock_update` (`epoll-socket.c`, not part of
the sources): it is given the port and the socket and returns its `int` result
together with the port as it leaves it. -/
abbrev ep_sock_update_t := ep_port_t → ep_sock_t → Int × ep_port_t

/-- What a drain leaves behind: the value returned, the port, and the sockets
`ep_sock_update` was invoked on, in the order of the calls. -/
structure update_events_result where
  result : Int
  port_info : ep_port_t
  updated : List ep_sock_t
deriving DecidableEq

/-- The `while` loop of the source's `ep_port_update_events`.  One unit of fuel
is spent per `ep_sock_update` call; `none` means the fuel ran out. -/
def ep_port_update_events_loop (ep_sock_update : ep_sock_update_t) :
    Nat → ep_port_t → List ep_sock_t → Option update_events_result
  | 0, port_info, updated =>
    if queue_empty port_info.update_queue then some ⟨0, port_info, updated⟩ else none
  | fuel + 1, port_info, updated =>
    if queue_empty port_info.update_queue then some ⟨0, port_info, updated⟩
    else
      match queue_first port_info.update_queue with
      | none => none
      | some sock_info =>
        if (ep_sock_update port_info sock_info).1 < 0 then
          some ⟨-1, (ep_sock_update port_info sock_info).2, updated ++ [sock_info]⟩
        else
          ep_port_update_events_loop ep_sock_update fuel
            (ep_sock_update port_info sock_info).2 (updated ++ [sock_info])

/-- The source's `ep_port_update_events`. -/
def ep_port_update_events (ep_sock_update : ep_sock_update_t) (fuel : Nat)
    (port_info : ep_port_t) : Option update_events_result :=
  ep_port_update_events_loop ep_sock_update fuel port_info []

/-! ## Event feeder -/

/-- The socket collaborator's `ep_sock_feed_event` (`epoll-socket.c`, not part
of the sources).  It is given the port, the socket and the event slot `ev`
points to, and returns the number of events it emitted, the slot as it leaves
it and the port as it leaves it. -/
abbrev ep_sock_feed_event_t := ep_port_t → ep_sock_t → epoll_event → Nat × epoll_event × ep_port_t

/-- One invocation of `ep_sock_feed_event`: the index `i` of the completion
record, the socket, the index of the event slot handed over, the value returned
and the slot as the call left it. -/
structure feed_call where
  i : Nat
  sock_info : ep_sock_t
  slot : Nat
  emitted : Nat
  ev : epoll_event
deriving DecidableEq

/-- The variables of `ep_port_feed_events` during its loop, with the calls made
so far. -/
structure feed_state where
  port_info : ep_port_t
  event_list : Nat → epoll_event
  event_count : Nat
  calls : List feed_call

/-- The body of the `for` loop of `ep_port_feed_events`, at index `i`. -/
def feed_body (ep_sock_from_overlapped : OVERLAPPED → ep_sock_t)
    (ep_sock_feed_event : ep_sock_feed_event_t) (completion_list : Nat → OVERLAPPED_ENTRY)
    (i : Nat) (st : feed_state) : feed_state :=
  let overlapped := (completion_list i).lpOverlapped
  let sock_info := ep_sock_from_overlapped overlapped
  let r := ep_sock_feed_event st.port_info sock_info (st.event_list st.event_count)
  ⟨r.2.2, Function.update st.event_list st.event_count r.2.1, st.event_count + r.1,
    st.calls ++ [⟨i, sock_info, st.event_count, r.1, r.2.1⟩]⟩

/-- The `for` loop of `ep_port_feed_events`: `remaining` iterations starting at
index `i`. -/
def feed_loop (ep_sock_from_overlapped : OVERLAPPED → ep_sock_t)
    (ep_sock_feed_event : ep_sock_feed_event_t) (completion_list : Nat → OVERLAPPED_ENTRY) :
    Nat → Nat → feed_state → feed_state
  | 0, _, st => st
  | remaining + 1, i, st =>
    feed_loop ep_sock_from_overlapped ep_sock_feed_event completion_list remaining (i + 1)
      (feed_body ep_sock_from_overlapped ep_sock_feed_event completion_list i st)

/-- How a call of `ep_port_feed_events` ends: the process is aborted (after the
listed collaborator calls), or the function returns `event_count`. -/
inductive feed_outcome where
  | aborted (calls : List feed_call)
  | returned (st : feed_state)

/-- The source's `ep_port_feed_events`.  `completion_list` and `event_list` are
the memory behind the two pointers, indexed by slot. -/
def ep_port_feed_events (ep_sock_from_overlapped : OVERLAPPED → ep_sock_t)
    (ep_sock_feed_event : ep_sock_feed_event_t) (port_info : ep_port_t)
    (completion_list : Nat → OVERLAPPED_ENTRY) (completion_count : Nat)
    (event_list : Nat → epoll_event) (max_event_count : Nat) : feed_outcome :=
  if completion_count > max_event_count then feed_outcome.aborted []
  else
    feed_outcome.returned
      (feed_loop ep_sock_from_overlapped ep_sock_feed_event completion_list completion_count 0
        ⟨port_info, event_list, 0, []⟩)

/-- The events emitted by a list of collaborator calls, in call order: the slot
contents of the calls that returned `1`. -/
def emitted_events (calls : List feed_call) : List epoll_event :=
  (calls.filter (fun c => c.emitted == 1)).map (fun c => c.ev)

/-! ## Deleting the port -/

/-- The socket collaborator's `ep_sock_force_delete` (`epoll-socket.c`, not part
of the sources): it is given the port and the socket and returns the port as it
leaves it. -/
abbrev ep_sock_force_delete_t := ep_port_t → ep_sock_t → ep_port_t

/-- What `ep_port_delete` leaves behind: the value returned, the port as it is
when its memory is released, the handles passed to `CloseHandle`, the sockets
passed to `ep_sock_force_delete`, the allocators passed to
`poll_group_allocator_delete`, and whether the port was freed. -/
structure delete_result where
  result : Int
  port_info : ep_port_t
  closed : List (Option HANDLE)
  force_deleted : List ep_sock_t
  deleted_allocators : List poll_group_allocator_t
  freed : Bool
deriving DecidableEq

/-- The `while` loop of the source's `ep_port_delete`.  One unit of fuel is
spent per `ep_sock_force_delete` call; `none` means the fuel ran out. -/
def ep_port_delete_sockets (ep_sock_force_delete : ep_sock_force_delete_t) :
    Nat → ep_port_t → List ep_sock_t → Option (ep_port_t × List ep_sock_t)
  | 0, port_info, deleted =>
    match tree_root port_info.sock_tree with
    | none => some (port_info, deleted)
    | some _ => none
  | fuel + 1, port_info, deleted =>
    match tree_root port_info.sock_tree with
    | none => some (port_info, deleted)
    | some sock_info =>
      ep_port_delete_sockets ep_sock_force_delete fuel
        (ep_sock_force_delete port_info sock_info) (deleted ++ [sock_info])

/-- The `for` loop of the source's `ep_port_delete` over the allocator slots:
the allocators passed to `poll_group_allocator_delete`, in slot order. -/
def ep_port_delete_allocators :
    List (Option poll_group_allocator_t) → List poll_group_allocator_t
  | [] => []
  | none :: rest => ep_port_delete_allocators rest
  | some pga :: rest => pga :: ep_port_delete_allocators rest

/-- The source's `ep_port_delete`. -/
def ep_port_delete (CloseHandle : Option HANDLE → Bool)
    (ep_sock_force_delete : ep_sock_force_delete_t) (fuel : Nat) (port_info : ep_port_t) :
    Option delete_result :=
  let closed := if port_info.iocp ≠ none then [port_info.iocp] else []
  let port_info :=
    if port_info.iocp ≠ none then (_ep_port_close_iocp CloseHandle port_info).2.1
    else port_info
  match ep_port_delete_sockets ep_sock_force_delete fuel port_info [] with
  | none => none
  | some (port_info, force_deleted) =>
    some ⟨0, port_info, closed, force_deleted,
      ep_port_delete_allocators port_info.poll_group_allocators, true⟩

/-! ## Poll groups -/

/-- The two entry points of `poll-group.c` (not part of the sources) that the
port calls.  `ε` is the state behind them: the heap and the allocators'
poll groups.  Each takes that state and returns it with its result; `none` is
the `NULL` pointer. -/
structure poll_group_collab (ε : Type) where
  poll_group_allocator_new :
    ε → ep_port_t → WSAPROTOCOL_INFOW → Option poll_group_allocator_t × ε
  poll_group_acquire : ε → Option poll_group_allocator_t → Option poll_group_t × ε

/-- What `_ep_port_get_poll_group_allocator` leaves behind: the pointer it
returns, the port, the collaborator state, and whether it called
`poll_group_allocator_new`. -/
structure get_allocator_result (ε : Type) where
  pga : Option poll_group_allocator_t
  port_info : ep_port_t
  env : ε
  new_called : Bool

/-- The source's `_ep_port_get_poll_group_allocator`; `none` is the failed
`assert` on `protocol_id`. -/
def _ep_port_get_poll_group_allocator {ε : Type} (C : poll_group_collab ε) (env : ε)
    (port_info : ep_port_t) (protocol_id : Nat) (protocol_info : WSAPROTOCOL_INFOW) :
    Option (get_allocator_result ε) :=
  if protocol_id < port_info.poll_group_allocators.length then
    match port_info.poll_group_allocators.getD protocol_id none with
    | none =>
      some ⟨(C.poll_group_allocator_new env port_info protocol_info).1,
        { port_info with
          poll_group_allocators := port_info.poll_group_allocators.set protocol_id
            (C.poll_group_allocator_new env port_info protocol_info).1 },
        (C.poll_group_allocator_new env port_info protocol_info).2, true⟩
    | some pga => some ⟨some pga, port_info, env, false⟩
  else none

/-- What `ep_port_acquire_poll_group` leaves behind: the poll group it returns,
the port, the collaborator state, whether `poll_group_allocator_new` was
called, and the allocator pointer `poll_group_acquire` was called with. -/
structure acquire_result (ε : Type) where
  poll_group : Option poll_group_t
  port_info : ep_port_t
  env : ε
  new_called : Bool
  acquired_from : Option poll_group_allocator_t

/-- The source's `ep_port_acquire_poll_group`. -/
def ep_port_acquire_poll_group {ε : Type} (C : poll_group_collab ε) (env : ε)
    (port_info : ep_port_t) (protocol_id : Nat) (protocol_info : WSAPROTOCOL_INFOW) :
    Option (acquire_result ε) :=
  match _ep_port_get_poll_group_allocator C env port_info protocol_id protocol_info with
  | none => none
  | some g =>
    some ⟨(C.poll_group_acquire g.env g.pga).1, g.port_info,
      (C.poll_group_acquire g.env g.pga).2, g.new_called, g.pga⟩

/-- A sequence of `ep_port_acquire_poll_group` calls, one after the other, each
given as its `protocol_id` and `protocol_info`: the collaborator state and the
port after the last call, `none` if one of the calls fails its `assert`. -/
def acquire_run {ε : Type} (C : poll_group_collab ε) :
    ε → ep_port_t → List (Nat × WSAPROTOCOL_INFOW) → Option (ε × ep_port_t)
  | env, port_info, [] => some (env, port_info)
  | env, port_info, (protocol_id, protocol_info) :: rest =>
    match ep_port_acquire_poll_group C env port_info protocol_id protocol_info with
    | none => none
    | some r => acquire_run C r.env r.port_info rest

/-! ## Invariants and contracts -/

/-- The registry invariant: the keys of the nodes increase strictly. -/
def tree_sorted (tree : tree_t) : Prop :=
  (tree.map Prod.fst).Pairwise (· < ·)

/-- The loop invariant of `ep_port_feed_events` before iteration `i`: the calls
made so far are those of records `0 .. i-1` in order, each on the socket of its
record, each handed a slot index that is at most its record index;
`event_count` is the number of events emitted so far and is at most `i`; and
the first `event_count` slots of `event_list` hold the emitted events in
order. -/
def feed_inv (ep_sock_from_overlapped : OVERLAPPED → ep_sock_t)
    (completion_list : Nat → OVERLAPPED_ENTRY) (i : Nat) (st : feed_state) : Prop :=
  st.calls.map (fun c => c.i) = List.range i ∧
  (∀ c ∈ st.calls,
    c.sock_info = ep_sock_from_overlapped (completion_list c.i).lpOverlapped) ∧
  (∀ c ∈ st.calls, c.slot ≤ c.i ∧ c.emitted ≤ 1) ∧
  st.event_count = (emitted_events st.calls).length ∧
  st.event_count ≤ i ∧
  (∀ k, k < st.event_count → (emitted_events st.calls)[k]? = some (st.event_list k))

/-- The contract of `ep_sock_force_delete` towards the port: it detaches the
socket from the registry (as `ep_port_del_socket` does) and from the update
queue (as `ep_port_clear_socket_update` does), and leaves the completion
handle and the allocator slots alone. -/
def force_delete_detaches (ep_sock_force_delete : ep_sock_force_delete_t) : Prop :=
  ∀ p s,
    (ep_sock_force_delete p s).sock_tree = (ep_port_del_socket p s).2.sock_tree ∧
    (ep_sock_force_delete p s).update_queue = (ep_port_clear_socket_update p s).update_queue ∧
    (ep_sock_force_delete p s).iocp = p.iocp ∧
    (ep_sock_force_delete p s).poll_group_allocators = p.poll_group_allocators

/-! ## Concrete collaborators and inputs -/

/-- A port with handle 1, two empty allocator slots, nothing registered. -/
def example_port : ep_port_t := ⟨some 1, [], [], [none, none]⟩

/-- A back-reference from request structures to sockets: request `o` belongs to
socket `o + 100`. -/
def example_from_overlapped : OVERLAPPED → ep_sock_t := fun o => o + 100

/-- A feed-event collaborator: a socket with an even address emits one event
carrying its address, a socket with an odd address emits nothing. -/
def example_feed_event : ep_sock_feed_event_t := fun p s e =>
  if s % 2 = 0 then (1, ⟨1, s⟩, p) else (0, e, p)

/-- A batch of completion records: record `i` refers to request `i`. -/
def example_completions : Nat → OVERLAPPED_ENTRY := fun i => ⟨i⟩

/-- An event buffer filled with zero events. -/
def example_events : Nat → epoll_event := fun _ => ⟨0, 0⟩

/-- A poll-group collaborator that never fails.  Its state is the number of
allocators created so far: the next allocator gets the address `1000` plus that
number, and an allocator at address `a` hands out the poll group `a + 5000`. -/
def example_collab : poll_group_collab Nat :=
  ⟨fun e _ _ => (some (1000 + e), e + 1), fun e pga => (pga.map (fun a => a + 5000), e)⟩

/-- A poll-group collaborator that is out of memory: `poll_group_allocator_new`
returns `NULL`.  Its `poll_group_acquire` does not test its argument: it hands
out the poll group that lies `5000` past the allocator's address. -/
def exhausted_collab : poll_group_collab Nat :=
  ⟨fun e _ _ => (none, e), fun e pga => (some (pga.getD 0 + 5000), e)⟩

/-- A port with handle 1, the sockets 5, 6, 7 registered under the descriptors
3, 4, 9 and all three enqueued for update, and an allocator in slot 1. -/
def example_port_busy : ep_port_t :=
  ⟨some 1, [5, 6, 7], [(3, 5), (4, 6), (9, 7)], [none, some 1000]⟩

/-- An update collaborator that always succeeds: it clears its socket from the
update queue and returns `0`. -/
def example_sock_update : ep_sock_update_t := fun p s =>
  (0, ep_port_clear_socket_update p s)

/-- An update collaborator that fails on socket 6, leaving the port alone, and
succeeds on every other socket. -/
def example_sock_update_failing : ep_sock_update_t := fun p s =>
  if s = 6 then (-1, p) else (0, ep_port_clear_socket_update p s)

/-- A force-delete collaborator: it removes the socket from the registry and
clears its pending update. -/
def example_force_delete : ep_sock_force_delete_t := fun p s =>
  ep_port_clear_socket_update (ep_port_del_socket p s).2 s

/-! ## Registry lemmas -/

theorem tree_add_result (tree : tree_t) (node : ep_sock_t) (key : SOCKET) :
    (tree_add tree node key).1 = 0 ∨ (tree_add tree node key).1 = -1 := by
  induction tree with
  | nil => simp [tree_add]
  | cons e rest ih =>
    obtain ⟨k, n⟩ := e
    simp only [tree_add]
    split_ifs <;> simp [ih]

theorem tree_add_fail_unchanged (tree : tree_t) (node : ep_sock_t) (key : SOCKET)
    (h : (tree_add tree node key).1 ≠ 0) : (tree_add tree node key).2 = tree := by
  induction tree with
  | nil => simp [tree_add] at h
  | cons e rest ih =>
    obtain ⟨k, n⟩ := e
    simp only [tree_add] at h ⊢
    split_ifs at h ⊢ with h1 h2
    · simp at h
    · rfl
    · simp only [List.cons.injEq, true_and]
      exact ih h

theorem tree_add_keys (tree : tree_t) (node : ep_sock_t) (key : SOCKET) (x : SOCKET)
    (hx : x ∈ (tree_add tree node key).2.map Prod.fst) :
    x = key ∨ x ∈ tree.map Prod.fst := by
  induction tree with
  | nil => simpa [tree_add] using hx
  | cons e rest ih =>
    obtain ⟨k, n⟩ := e
    simp only [tree_add] at hx
    split_ifs at hx with h1 h2
    · simpa using hx
    · right; simpa using hx
    · simp only [List.map_cons, List.mem_cons] at hx ⊢
      rcases hx with hx | hx
      · exact Or.inr (Or.inl hx)
      · rcases ih hx with h | h
        · exact Or.inl h
        · exact Or.inr (Or.inr h)

theorem tree_add_sorted (tree : tree_t) (node : ep_sock_t) (key : SOCKET)
    (hs : tree_sorted tree) : tree_sorted (tree_add tree node key).2 := by
  induction tree with
  | nil => simp [tree_add, tree_sorted]
  | cons e rest ih =>
    obtain ⟨k, n⟩ := e
    unfold tree_sorted at hs ih ⊢
    simp only [List.map_cons, List.pairwise_cons] at hs
    simp only [tree_add]
    split_ifs with h1 h2
    · simp only [List.map_cons, List.pairwise_cons, List.mem_cons]
      refine ⟨?_, hs.1, hs.2⟩
      rintro a (rfl | ha)
      · exact h1
      · exact lt_trans h1 (hs.1 a ha)
    · simp only [List.map_cons, List.pairwise_cons]
      exact hs
    · simp only [List.map_cons, List.pairwise_cons]
      refine ⟨?_, ih hs.2⟩
      intro a ha
      rcases tree_add_keys rest node key a ha with h | h
      · subst h
        exact lt_of_le_of_ne (not_lt.mp h1) (fun h => h2 h.symm)
      · exact hs.1 a h

theorem tree_find_add (tree : tree_t) (node : ep_sock_t) (key d : SOCKET)
    (h : (tree_add tree node key).1 = 0) :
    tree_find (tree_add tree node key).2 d = if d = key then some node else tree_find tree d := by
  induction tree with
  | nil => simp [tree_add, tree_find]
  | cons e rest ih =>
    obtain ⟨k, n⟩ := e
    simp only [tree_add] at h ⊢
    by_cases h1 : key < k
    · simp only [h1, if_true, tree_find]
    · by_cases h2 : key = k
      · simp [h1, h2] at h
      · simp only [h1, h2, if_false] at h ⊢
        simp only [tree_find, ih h]
        by_cases h3 : d = k
        · have h4 : ¬ d = key := fun h5 => h2 (h5 ▸ h3)
          simp [h3, h4, Ne.symm h2]
        · simp [h3]

theorem tree_find_mem (tree : tree_t) (d : SOCKET) (s : ep_sock_t)
    (h : tree_find tree d = some s) : (d, s) ∈ tree := by
  induction tree with
  | nil => simp [tree_find] at h
  | cons e rest ih =>
    obtain ⟨k, n⟩ := e
    simp only [tree_find] at h
    split_ifs at h with h1
    · simp only [Option.some.injEq] at h
      simp [h1, h]
    · exact List.mem_cons_of_mem _ (ih h)

theorem tree_mem_find (tree : tree_t) (d : SOCKET) (s : ep_sock_t)
    (hs : tree_sorted tree) (h : (d, s) ∈ tree) : tree_find tree d = some s := by
  induction tree with
  | nil => simp at h
  | cons e rest ih =>
    obtain ⟨k, n⟩ := e
    unfold tree_sorted at hs ih
    simp only [List.map_cons, List.pairwise_cons] at hs
    simp only [tree_find]
    rcases List.mem_cons.mp h with h1 | h1
    · simp only [Prod.mk.injEq] at h1
      simp [h1.1, h1.2]
    · have hk : k < d := hs.1 d (List.mem_map_of_mem Prod.fst h1)
      have hne : ¬ d = k := fun h2 => by rw [h2] at hk; exact lt_irrefl _ hk
      simp only [hne, if_false]
      exact ih hs.2 h1

theorem tree_add_dup (tree : tree_t) (node : ep_sock_t) (key : SOCKET) (s : ep_sock_t)
    (hs : tree_sorted tree) (h : tree_find tree key = some s) :
    tree_add tree node key = (-1, tree) := by
  induction tree with
  | nil => simp [tree_find] at h
  | cons e rest ih =>
    obtain ⟨k, n⟩ := e
    unfold tree_sorted at hs ih
    simp only [List.map_cons, List.pairwise_cons] at hs
    simp only [tree_find] at h
    simp only [tree_add]
    by_cases h2 : key = k
    · simp [h2]
    · simp only [h2, if_false] at h ⊢
      have hk : k < key := hs.1 key (List.mem_map_of_mem Prod.fst (tree_find_mem rest key s h))
      have h1 : ¬ key < k := not_lt.mpr (le_of_lt hk)
      simp only [h1, if_false]
      rw [ih hs.2 h]

theorem tree_del_sorted (tree : tree_t) (node : ep_sock_t) (hs : tree_sorted tree) :
    tree_sorted (tree_del tree node).2 := by
  unfold tree_del
  split_ifs
  · exact List.Pairwise.sublist ((List.filter_sublist tree).map Prod.fst) hs
  · exact hs

theorem tree_find_del (tree : tree_t) (node : ep_sock_t) (d : SOCKET) (s : ep_sock_t)
    (hs : tree_sorted tree) :
    tree_find (tree_del tree node).2 d = some s ↔ tree_find tree d = some s ∧ s ≠ node := by
  have hs2 := tree_del_sorted tree node hs
  constructor
  · intro h
    have hm := tree_find_mem _ _ _ h
    unfold tree_del at hm
    split_ifs at hm with h1
    · simp only [List.mem_filter, bne_iff_ne, ne_eq] at hm
      exact ⟨tree_mem_find tree d s hs hm.1, hm.2⟩
    · simp only [List.any_eq_true, beq_iff_eq, not_exists, not_and] at h1
      exact ⟨tree_mem_find tree d s hs hm, fun h2 => h1 (d, s) hm h2⟩
  · rintro ⟨h, hne⟩
    apply tree_mem_find _ _ _ hs2
    have hm := tree_find_mem _ _ _ h
    unfold tree_del
    split_ifs
    · simp only [List.mem_filter, bne_iff_ne, ne_eq]
      exact ⟨hm, hne⟩
    · exact hm

theorem registry_step_sorted (port_info : ep_port_t) (c : registry_call)
    (hs : tree_sorted port_info.sock_tree) :
    tree_sorted (registry_step port_info c).2.sock_tree := by
  cases c with
  | add sock_info socket => exact tree_add_sorted _ _ _ hs
  | del sock_info => exact tree_del_sorted _ _ hs

theorem registry_run_snoc (port_info : ep_port_t) (calls : List registry_call)
    (c : registry_call) :
    registry_run port_info (calls ++ [c]) = (registry_step (registry_run port_info calls) c).2 := by
  simp [registry_run, List.foldl_append]

theorem registry_run_sorted (port_info : ep_port_t) (calls : List registry_call)
    (hs : tree_sorted port_info.sock_tree) :
    tree_sorted (registry_run port_info calls).sock_tree := by
  induction calls using List.reverseRecOn with
  | nil => exact hs
  | append_singleton cs c ih =>
    rw [registry_run_snoc]
    exact registry_step_sorted _ _ ih

/-- What one registry call does to a lookup: an add that returns `0` binds its
descriptor and leaves the others, a failing add leaves everything, a removal
unbinds the descriptors of the removed socket. -/
theorem find_after_step (port_info : ep_port_t) (c : registry_call) (d : SOCKET)
    (s : ep_sock_t) (hs : tree_sorted port_info.sock_tree) :
    ep_port_find_socket (registry_step port_info c).2 d = some s ↔
      (c = registry_call.add s d ∧ (ep_port_add_socket port_info s d).1 = 0) ∨
      (ep_port_find_socket port_info d = some s ∧ c ≠ registry_call.del s) := by
  cases c with
  | add sock_info socket =>
    have hcne : registry_call.add sock_info socket ≠ registry_call.del s := by
      intro h; cases h
    show tree_find (tree_add port_info.sock_tree sock_info socket).2 d = some s ↔
      (registry_call.add sock_info socket = registry_call.add s d ∧
        (tree_add port_info.sock_tree s d).1 = 0) ∨
      (tree_find port_info.sock_tree d = some s ∧
        registry_call.add sock_info socket ≠ registry_call.del s)
    rcases tree_add_result port_info.sock_tree sock_info socket with h | h
    · rw [tree_find_add _ _ _ _ h]
      have hnone : tree_find port_info.sock_tree socket = none := by
        cases hf : tree_find port_info.sock_tree socket with
        | none => rfl
        | some x =>
          rw [tree_add_dup _ sock_info socket x hs hf] at h
          simp at h
      by_cases hd : d = socket
      · subst hd
        simp only [if_true, Option.some.injEq]
        constructor
        · intro h1
          subst h1
          exact Or.inl ⟨rfl, h⟩
        · rintro (⟨h1, _⟩ | ⟨h1, _⟩)
          · cases h1; rfl
          · rw [hnone] at h1; cases h1
      · simp only [hd, if_false]
        constructor
        · intro h1; exact Or.inr ⟨h1, hcne⟩
        · rintro (⟨h1, _⟩ | ⟨h1, _⟩)
          · cases h1; exact absurd rfl hd
          · exact h1
    · have hne : (tree_add port_info.sock_tree sock_info socket).1 ≠ 0 := by rw [h]; decide
      rw [tree_add_fail_unchanged _ _ _ hne]
      constructor
      · intro h1; exact Or.inr ⟨h1, hcne⟩
      · rintro (⟨h1, h3⟩ | ⟨h1, _⟩)
        · cases h1
          exact absurd h3 hne
        · exact h1
  | del sock_info =>
    show tree_find (tree_del port_info.sock_tree sock_info).2 d = some s ↔
      (registry_call.del sock_info = registry_call.add s d ∧
        (tree_add port_info.sock_tree s d).1 = 0) ∨
      (tree_find port_info.sock_tree d = some s ∧
        registry_call.del sock_info ≠ registry_call.del s)
    rw [tree_find_del _ _ _ _ hs]
    constructor
    · rintro ⟨h1, h2⟩
      exact Or.inr ⟨h1, fun h3 => by cases h3; exact h2 rfl⟩
    · rintro (⟨h1, _⟩ | ⟨h1, h2⟩)
      · cases h1
      · exact ⟨h1, fun h3 => h2 (by rw [h3])⟩

theorem registry_find_iff (port_info : ep_port_t) (h0 : port_info.sock_tree = tree_init)
    (calls : List registry_call) (d : SOCKET) (s : ep_sock_t) :
    ep_port_find_socket (registry_run port_info calls) d = some s ↔
      ∃ pre post, calls = pre ++ registry_call.add s d :: post ∧
        (ep_port_add_socket (registry_run port_info pre) s d).1 = 0 ∧
        registry_call.del s ∉ post := by
  have hs : tree_sorted port_info.sock_tree := by
    rw [h0]; simp [tree_sorted, tree_init]
  induction calls using List.reverseRecOn with
  | nil =>
    constructor
    · intro h
      simp [registry_run, ep_port_find_socket, ep_sock_find_in_tree, h0, tree_init,
        tree_find] at h
    · rintro ⟨pre, post, h, _⟩
      simp at h
  | append_singleton cs c ih =>
    rw [registry_run_snoc, find_after_step _ _ _ _ (registry_run_sorted _ _ hs)]
    constructor
    · rintro (⟨hc, hok⟩ | ⟨hf, hne⟩)
      · exact ⟨cs, [], by rw [hc], hok, by simp⟩
      · obtain ⟨pre, post, hcs, hok, hdel⟩ := ih.mp hf
        refine ⟨pre, post ++ [c], by simp [hcs], hok, ?_⟩
        simp only [List.mem_append, List.mem_singleton, not_or]
        exact ⟨hdel, fun h => hne h.symm⟩
    · rintro ⟨pre, post, h, hok, hdel⟩
      rcases List.eq_nil_or_concat post with hp | ⟨L, b, hp⟩
      · subst hp
        have h2 := List.append_inj' h rfl
        obtain ⟨h3, h4⟩ := h2
        injection h4 with h4
        subst h3
        exact Or.inl ⟨h4, hok⟩
      · subst hp
        have h1 : cs ++ [c] = (pre ++ registry_call.add s d :: L) ++ [b] := by
          rw [h]; simp
        obtain ⟨h3, h4⟩ := List.append_inj' h1 rfl
        injection h4 with h4
        subst h4
        simp only [List.concat_eq_append, List.mem_append, List.mem_singleton, not_or] at hdel
        exact Or.inr ⟨ih.mpr ⟨pre, L, h3, hok, hdel.1⟩, fun h5 => hdel.2 h5.symm⟩

/-- C1: after every sequence of `ep_port_add_socket` / `ep_port_del_socket`
calls on a port whose registry starts empty, `ep_port_find_socket` returns
socket `s` for descriptor `d` exactly when some call added `s` under `d`
successfully (it returned `0`) and no later call removed `s`; every other
descriptor is "not found".  And on every registry so reached that already holds
descriptor `d`, `ep_port_add_socket` with `d` returns `-1` and leaves the port
as it was. -/
theorem C1_registry_added_not_removed (port_info : ep_port_t)
    (h0 : port_info.sock_tree = tree_init) (calls : List registry_call) (d : SOCKET) :
    (∀ s, ep_port_find_socket (registry_run port_info calls) d = some s ↔
      ∃ pre post, calls = pre ++ registry_call.add s d :: post ∧
        (ep_port_add_socket (registry_run port_info pre) s d).1 = 0 ∧
        registry_call.del s ∉ post) ∧
    (ep_port_find_socket (registry_run port_info calls) d = none ↔
      ¬ ∃ s pre post, calls = pre ++ registry_call.add s d :: post ∧
        (ep_port_add_socket (registry_run port_info pre) s d).1 = 0 ∧
        registry_call.del s ∉ post) ∧
    (ep_port_find_socket (registry_run port_info calls) d ≠ none →
      ∀ sock_info, ep_port_add_socket (registry_run port_info calls) sock_info d =
        (-1, registry_run port_info calls)) := by
  have hs : tree_sorted port_info.sock_tree := by
    rw [h0]; simp [tree_sorted, tree_init]
  refine ⟨fun s => registry_find_iff port_info h0 calls d s, ?_, ?_⟩
  · constructor
    · rintro h ⟨s, hex⟩
      rw [(registry_find_iff port_info h0 calls d s).mpr hex] at h
      cases h
    · intro h
      cases hf : ep_port_find_socket (registry_run port_info calls) d with
      | none => rfl
      | some s => exact absurd ⟨s, (registry_find_iff port_info h0 calls d s).mp hf⟩ h
  · intro h sock_info
    cases hf : ep_port_find_socket (registry_run port_info calls) d with
    | none => exact absurd hf h
    | some s =>
      have hd := tree_add_dup _ sock_info d s (registry_run_sorted port_info calls hs) hf
      simp only [ep_port_add_socket, hd]

/-- A run of C1: sockets 10 and 11 are added under descriptors 5 and 3, a second
add under 5 fails, 10 is removed: descriptor 3 finds 11, descriptor 5 finds
nothing, and adding under 3 again fails without changing the port. -/
theorem C1_registry_added_not_removed_witness :
    example_port.sock_tree = tree_init ∧
    ep_port_find_socket (registry_run example_port
      [registry_call.add 10 5, registry_call.add 11 3, registry_call.add 12 5,
        registry_call.del 10]) 3 = some 11 ∧
    ep_port_find_socket (registry_run example_port
      [registry_call.add 10 5, registry_call.add 11 3, registry_call.add 12 5,
        registry_call.del 10]) 5 = none ∧
    ep_port_add_socket (registry_run example_port
      [registry_call.add 10 5, registry_call.add 11 3, registry_call.add 12 5,
        registry_call.del 10]) 13 3 =
      (-1, registry_run example_port
        [registry_call.add 10 5, registry_call.add 11 3, registry_call.add 12 5,
          registry_call.del 10]) :=
  ⟨rfl,
    ((C1_registry_added_not_removed example_port rfl
      [registry_call.add 10 5, registry_call.add 11 3, registry_call.add 12 5,
        registry_call.del 10] 3).1 11).mpr
      ⟨[registry_call.add 10 5], [registry_call.add 12 5, registry_call.del 10], rfl,
        by decide, by decide⟩,
    by decide,
    (C1_registry_added_not_removed example_port rfl
      [registry_call.add 10 5, registry_call.add 11 3, registry_call.add 12 5,
        registry_call.del 10] 3).2.2 (by decide) 13⟩

/-! ## Update-schedule lemmas -/

theorem pending_iff_mem (port_info : ep_port_t) (sock_info : ep_sock_t) :
    ep_port_is_socket_update_pending port_info sock_info = true ↔
      sock_info ∈ port_info.update_queue := by
  simp [ep_port_is_socket_update_pending, queue_enqueued]

/-- The `assert` that closes `ep_port_request_socket_update` holds. -/
theorem request_assert_holds (port_info : ep_port_t) (sock_info : ep_sock_t) :
    ep_port_is_socket_update_pending (ep_port_request_socket_update port_info sock_info)
      sock_info = true := by
  unfold ep_port_request_socket_update
  split_ifs with h
  · exact h
  · simp [ep_port_is_socket_update_pending, queue_enqueued, queue_append]

theorem update_step_nodup (port_info : ep_port_t) (c : update_call)
    (h : port_info.update_queue.Nodup) : (update_step port_info c).update_queue.Nodup := by
  cases c with
  | request sock_info =>
    simp only [update_step, ep_port_request_socket_update]
    split_ifs with h1
    · exact h
    · have h2 : sock_info ∉ port_info.update_queue := fun hm =>
        h1 ((pending_iff_mem _ _).mpr hm)
      simp only [queue_append]
      exact List.Nodup.append h (List.nodup_singleton _) (by simpa using h2)
  | clear sock_info =>
    simp only [update_step, ep_port_clear_socket_update]
    split_ifs with h1
    · exact h
    · exact List.Nodup.erase _ h

theorem update_run_nodup (calls : List update_call) (port_info : ep_port_t)
    (h : port_info.update_queue.Nodup) : (update_run port_info calls).update_queue.Nodup := by
  induction calls generalizing port_info with
  | nil => exact h
  | cons c cs ih => exact ih _ (update_step_nodup _ _ h)

/-- C2: starting from an empty update queue, after every sequence of
`ep_port_request_socket_update` / `ep_port_clear_socket_update` calls each
socket occurs in the queue at most once; `ep_port_is_socket_update_pending` is
true exactly for the sockets in the queue; a request on an enqueued socket and
a clear on a socket that is not enqueued return the port unchanged; a request
on a socket that is not enqueued appends it at the tail; and request A,
request B, request A gives the queue `[A, B]`. -/
theorem C2_update_queue_no_duplicates (port_info : ep_port_t)
    (h0 : port_info.update_queue = queue_init) (calls : List update_call) :
    (∀ s, (update_run port_info calls).update_queue.count s ≤ 1) ∧
    (∀ s, ep_port_is_socket_update_pending (update_run port_info calls) s = true ↔
      s ∈ (update_run port_info calls).update_queue) ∧
    (∀ s, ep_port_is_socket_update_pending (update_run port_info calls) s = true →
      ep_port_request_socket_update (update_run port_info calls) s =
        update_run port_info calls) ∧
    (∀ s, ep_port_is_socket_update_pending (update_run port_info calls) s = false →
      ep_port_clear_socket_update (update_run port_info calls) s =
        update_run port_info calls) ∧
    (∀ s, ep_port_is_socket_update_pending (update_run port_info calls) s = false →
      (ep_port_request_socket_update (update_run port_info calls) s).update_queue =
        (update_run port_info calls).update_queue ++ [s]) ∧
    (∀ A B, A ≠ B →
      (update_run port_info
        [update_call.request A, update_call.request B, update_call.request A]).update_queue =
        [A, B]) := by
  have hnd : (update_run port_info calls).update_queue.Nodup :=
    update_run_nodup calls port_info (by rw [h0]; exact List.nodup_nil)
  refine ⟨fun s => List.nodup_iff_count_le_one.mp hnd s, fun s => pending_iff_mem _ s,
    ?_, ?_, ?_, ?_⟩
  · intro s hs
    simp [ep_port_request_socket_update, hs]
  · intro s hs
    simp [ep_port_clear_socket_update, hs]
  · intro s hs
    simp [ep_port_request_socket_update, hs, queue_append]
  · intro A B hAB
    simp [update_run, update_step, ep_port_request_socket_update,
      ep_port_is_socket_update_pending, queue_enqueued, queue_append, h0, queue_init,
      hAB, Ne.symm hAB]

/-- A run of C2: request 5, request 6, clear 5, request 5, request 6 leaves
each socket at most once in the queue; request 5, request 6, request 5 gives
`[5, 6]`. -/
theorem C2_update_queue_no_duplicates_witness :
    example_port.update_queue = queue_init ∧
    (∀ s, (update_run example_port
      [update_call.request 5, update_call.request 6, update_call.clear 5,
        update_call.request 5, update_call.request 6]).update_queue.count s ≤ 1) ∧
    (update_run example_port
      [update_call.request 5, update_call.request 6, update_call.request 5]).update_queue =
      [5, 6] :=
  ⟨rfl,
    (C2_update_queue_no_duplicates example_port rfl
      [update_call.request 5, update_call.request 6, update_call.clear 5,
        update_call.request 5, update_call.request 6]).1,
    (C2_update_queue_no_duplicates example_port rfl []).2.2.2.2.2 5 6 (by decide)⟩

/-! ## Drain lemmas -/

/-- Clearing the socket at the head of the queue leaves the tail. -/
theorem clear_head (port_info : ep_port_t) (s : ep_sock_t) (rest : queue_t)
    (h : port_info.update_queue = s :: rest) :
    (ep_port_clear_socket_update port_info s).update_queue = rest := by
  simp [ep_port_clear_socket_update, ep_port_is_socket_update_pending, queue_enqueued,
    queue_remove, h]

theorem update_events_loop_drains (ep_sock_update : ep_sock_update_t)
    (hok : ∀ p s, queue_first p.update_queue = some s →
      0 ≤ (ep_sock_update p s).1 ∧
      (ep_sock_update p s).2.update_queue = (ep_port_clear_socket_update p s).update_queue)
    (q : queue_t) (fuel : Nat) (port_info : ep_port_t) (updated : List ep_sock_t)
    (hq : port_info.update_queue = q) (hfuel : q.length ≤ fuel) :
    ∃ r, ep_port_update_events_loop ep_sock_update fuel port_info updated = some r ∧
      r.result = 0 ∧ r.updated = updated ++ q ∧ r.port_info.update_queue = [] := by
  induction q generalizing fuel port_info updated with
  | nil =>
    refine ⟨⟨0, port_info, updated⟩, ?_, rfl, by simp, hq⟩
    cases fuel <;> simp [ep_port_update_events_loop, queue_empty, hq]
  | cons s rest ih =>
    cases fuel with
    | zero => simp at hfuel
    | succ fuel =>
      have hfirst : queue_first port_info.update_queue = some s := by
        simp [queue_first, hq]
      obtain ⟨h1, h2⟩ := hok port_info s hfirst
      rw [clear_head port_info s rest hq] at h2
      obtain ⟨r, hr, hres, hupd, hqueue⟩ :=
        ih fuel (ep_sock_update port_info s).2 (updated ++ [s]) h2
          (by simpa using hfuel)
      refine ⟨r, ?_, hres, by simp [hupd], hqueue⟩
      simp only [ep_port_update_events_loop, queue_empty, hq, List.isEmpty_cons,
        Bool.false_eq_true, if_false]
      rw [← hq, hfirst]
      simp only [not_lt.mpr h1, if_false]
      exact hr

/-- C3: on a port whose update queue is empty `ep_port_update_events` returns
`0`, never calls `ep_sock_update` and returns the port unchanged, with any fuel.
And when every `ep_sock_update` call on the head of the queue succeeds and
clears its socket from the queue, `ep_port_update_events` returns (fuel equal
to the queue length is enough), the value is `0`, `ep_sock_update` was called
on the sockets of the queue in order, the queue is empty and no socket of the
starting queue is pending. -/
theorem C3_update_events_full_drain (ep_sock_update : ep_sock_update_t)
    (port_info : ep_port_t) :
    (port_info.update_queue = [] →
      ∀ fuel, ep_port_update_events ep_sock_update fuel port_info =
        some ⟨0, port_info, []⟩) ∧
    ((∀ p s, queue_first p.update_queue = some s →
        0 ≤ (ep_sock_update p s).1 ∧
        (ep_sock_update p s).2.update_queue =
          (ep_port_clear_socket_update p s).update_queue) →
      ∀ fuel, port_info.update_queue.length ≤ fuel →
        ∃ r, ep_port_update_events ep_sock_update fuel port_info = some r ∧
          r.result = 0 ∧ r.updated = port_info.update_queue ∧
          r.port_info.update_queue = [] ∧
          ∀ s ∈ port_info.update_queue,
            ep_port_is_socket_update_pending r.port_info s = false) := by
  constructor
  · intro h fuel
    cases fuel <;> simp [ep_port_update_events, ep_port_update_events_loop, queue_empty, h]
  · intro hok fuel hfuel
    obtain ⟨r, hr, hres, hupd, hqueue⟩ :=
      update_events_loop_drains ep_sock_update hok port_info.update_queue fuel port_info []
        rfl hfuel
    refine ⟨r, hr, hres, by simpa using hupd, hqueue, ?_⟩
    intro s _
    simp [ep_port_is_socket_update_pending, queue_enqueued, hqueue]

/-- A run of C3: the queue `[5, 6, 7]` is drained with three units of fuel. -/
theorem C3_update_events_full_drain_witness :
    ∃ r, ep_port_update_events example_sock_update 3 example_port_busy = some r ∧
      r.result = 0 ∧ r.updated = [5, 6, 7] ∧
      r.port_info.update_queue = [] ∧
      ∀ s ∈ example_port_busy.update_queue,
        ep_port_is_socket_update_pending r.port_info s = false :=
  (C3_update_events_full_drain example_sock_update example_port_busy).2
    (fun _ _ _ => ⟨le_refl _, rfl⟩) 3 (by decide)

theorem update_events_loop_fails (ep_sock_update : ep_sock_update_t)
    (before : List ep_sock_t) (sk : ep_sock_t) (rest : List ep_sock_t)
    (hok : ∀ p s, s ∈ before → queue_first p.update_queue = some s →
      0 ≤ (ep_sock_update p s).1 ∧
      (ep_sock_update p s).2.update_queue = (ep_port_clear_socket_update p s).update_queue)
    (hfail : ∀ p, queue_first p.update_queue = some sk →
      (ep_sock_update p sk).1 < 0 ∧ (ep_sock_update p sk).2.update_queue = p.update_queue)
    (fuel : Nat) (port_info : ep_port_t) (updated : List ep_sock_t)
    (hq : port_info.update_queue = before ++ sk :: rest) (hfuel : before.length < fuel) :
    ∃ r, ep_port_update_events_loop ep_sock_update fuel port_info updated = some r ∧
      r.result = -1 ∧ r.updated = updated ++ before ++ [sk] ∧
      r.port_info.update_queue = sk :: rest := by
  induction before generalizing fuel port_info updated with
  | nil =>
    cases fuel with
    | zero => simp at hfuel
    | succ fuel =>
      have hfirst : queue_first port_info.update_queue = some sk := by
        simp [queue_first, hq]
      obtain ⟨h1, h2⟩ := hfail port_info hfirst
      refine ⟨⟨-1, (ep_sock_update port_info sk).2, updated ++ [sk]⟩, ?_, rfl, by simp, ?_⟩
      · simp only [ep_port_update_events_loop, queue_empty, hq, List.nil_append,
          List.isEmpty_cons, Bool.false_eq_true, if_false]
        rw [show sk :: rest = port_info.update_queue from by simp [hq], hfirst]
        simp only [h1, if_true]
      · simpa [hq] using h2
  | cons s before ih =>
    cases fuel with
    | zero => simp at hfuel
    | succ fuel =>
      have hfirst : queue_first port_info.update_queue = some s := by
        simp [queue_first, hq]
      obtain ⟨h1, h2⟩ := hok port_info s (List.mem_cons_self _ _) hfirst
      rw [clear_head port_info s (before ++ sk :: rest) (by simpa using hq)] at h2
      obtain ⟨r, hr, hres, hupd, hqueue⟩ :=
        ih (fun p x hx => hok p x (List.mem_cons_of_mem _ hx)) fuel
          (ep_sock_update port_info s).2 (updated ++ [s]) h2 (by simpa using hfuel)
      refine ⟨r, ?_, hres, by simp [hupd], hqueue⟩
      simp only [ep_port_update_events_loop, queue_empty, hq, List.cons_append,
        List.isEmpty_cons, Bool.false_eq_true, if_false]
      rw [show s :: (before ++ sk :: rest) = port_info.update_queue from by simp [hq], hfirst]
      simp only [not_lt.mpr h1, if_false]
      exact hr

/-- C4: let the update queue be `before ++ sk :: rest` without repetition,
let `ep_sock_update` succeed and clear its socket on the sockets of `before`
and fail on `sk` without touching the queue.  Then `ep_port_update_events`
returns `-1`; `ep_sock_update` was called on `before` and then on `sk` and on
no socket of `rest`; the sockets of `before` are no longer pending; and the
queue is `sk :: rest`, the failing socket at the head and the others in their
original order. -/
theorem C4_update_events_fail_fast (ep_sock_update : ep_sock_update_t)
    (port_info : ep_port_t) (before : List ep_sock_t) (sk : ep_sock_t)
    (rest : List ep_sock_t)
    (hq : port_info.update_queue = before ++ sk :: rest)
    (hnodup : port_info.update_queue.Nodup)
    (hok : ∀ p s, s ∈ before → queue_first p.update_queue = some s →
      0 ≤ (ep_sock_update p s).1 ∧
      (ep_sock_update p s).2.update_queue = (ep_port_clear_socket_update p s).update_queue)
    (hfail : ∀ p, queue_first p.update_queue = some sk →
      (ep_sock_update p sk).1 < 0 ∧ (ep_sock_update p sk).2.update_queue = p.update_queue)
    (fuel : Nat) (hfuel : before.length < fuel) :
    ∃ r, ep_port_update_events ep_sock_update fuel port_info = some r ∧
      r.result = -1 ∧
      r.updated = before ++ [sk] ∧
      (∀ s ∈ rest, s ∉ r.updated) ∧
      (∀ s ∈ before, ep_port_is_socket_update_pending r.port_info s = false) ∧
      r.port_info.update_queue = sk :: rest := by
  obtain ⟨r, hr, hres, hupd, hqueue⟩ :=
    update_events_loop_fails ep_sock_update before sk rest hok hfail fuel port_info [] hq hfuel
  rw [hq] at hnodup
  have hdisj := List.nodup_append.mp hnodup
  refine ⟨r, hr, hres, by simpa using hupd, ?_, ?_, hqueue⟩
  · intro s hs hmem
    rw [hupd] at hmem
    simp only [List.nil_append, List.mem_append, List.mem_singleton] at hmem
    rcases hmem with hmem | hmem
    · exact hdisj.2.2 hmem (List.mem_cons_of_mem _ hs)
    · subst hmem
      exact (List.nodup_cons.mp hdisj.2.1).1 hs
  · intro s hs
    simp only [ep_port_is_socket_update_pending, queue_enqueued, hqueue]
    have : s ∉ sk :: rest := fun hm => hdisj.2.2 hs hm
    simpa using this

/-- A run of C4: in the queue `[5, 6, 7]` the update of socket 6 fails; socket 5
was updated and cleared, socket 7 was never updated, the queue is `[6, 7]`. -/
theorem C4_update_events_fail_fast_witness :
    example_port_busy.update_queue = [5] ++ 6 :: [7] ∧
    ∃ r, ep_port_update_events example_sock_update_failing 2 example_port_busy = some r ∧
      r.result = -1 ∧
      r.updated = [5] ++ [6] ∧
      (∀ s ∈ [7], s ∉ r.updated) ∧
      (∀ s ∈ [5], ep_port_is_socket_update_pending r.port_info s = false) ∧
      r.port_info.update_queue = 6 :: [7] :=
  ⟨rfl,
    C4_update_events_fail_fast example_sock_update_failing example_port_busy [5] 6 [7] rfl
      (by decide)
      (by
        intro p s hs _
        have h5 : s = 5 := by simpa using hs
        subst h5
        exact ⟨le_refl _, rfl⟩)
      (by intro p _; exact ⟨by simp [example_sock_update_failing], rfl⟩)
      2 (by decide)⟩

/-! ## Event-feeder lemmas -/

theorem emitted_events_snoc (calls : List feed_call) (c : feed_call) :
    emitted_events (calls ++ [c]) =
      emitted_events calls ++ (if c.emitted = 1 then [c.ev] else []) := by
  unfold emitted_events
  rw [List.filter_append, List.map_append]
  by_cases h : c.emitted = 1
  · have hb : (c.emitted == 1) = true := by simp [h]
    simp [List.filter, hb, h]
  · have hb : (c.emitted == 1) = false := by simp [h]
    simp [List.filter, hb, h]

theorem feed_body_inv (ep_sock_from_overlapped : OVERLAPPED → ep_sock_t)
    (ep_sock_feed_event : ep_sock_feed_event_t) (completion_list : Nat → OVERLAPPED_ENTRY)
    (h01 : ∀ p s e, (ep_sock_feed_event p s e).1 ≤ 1)
    (i : Nat) (st : feed_state)
    (hinv : feed_inv ep_sock_from_overlapped completion_list i st) :
    feed_inv ep_sock_from_overlapped completion_list (i + 1)
      (feed_body ep_sock_from_overlapped ep_sock_feed_event completion_list i st) := by
  obtain ⟨h1, h2, h3, h4, h5, h6⟩ := hinv
  have hr := h01 st.port_info (ep_sock_from_overlapped (completion_list i).lpOverlapped)
    (st.event_list st.event_count)
  simp only [feed_inv, feed_body]
  refine ⟨?_, ?_, ?_, ?_, ?_, ?_⟩
  · rw [List.map_append, h1, List.range_succ]; rfl
  · intro c hc
    rcases List.mem_append.mp hc with hc | hc
    · exact h2 c hc
    · rw [List.mem_singleton.mp hc]
  · intro c hc
    rcases List.mem_append.mp hc with hc | hc
    · exact h3 c hc
    · rw [List.mem_singleton.mp hc]
      exact ⟨h5, hr⟩
  · rw [emitted_events_snoc, List.length_append, ← h4]
    split_ifs with h
    · simp only at h
      simp [h]
    · simp only at h
      have : (ep_sock_feed_event st.port_info
          (ep_sock_from_overlapped (completion_list i).lpOverlapped)
          (st.event_list st.event_count)).1 = 0 := by omega
      simp [this]
  · omega
  · intro k hk
    rw [emitted_events_snoc]
    by_cases hlt : k < st.event_count
    · rw [List.getElem?_append_left (by rw [← h4]; exact hlt), h6 k hlt]
      rw [Function.update_noteq (Nat.ne_of_lt hlt)]
    · have hone : (ep_sock_feed_event st.port_info
          (ep_sock_from_overlapped (completion_list i).lpOverlapped)
          (st.event_list st.event_count)).1 = 1 := by omega
      have hk2 : k = st.event_count := by omega
      subst hk2
      rw [List.getElem?_append_right (by rw [← h4])]
      simp [hone, ← h4]

theorem feed_loop_inv (ep_sock_from_overlapped : OVERLAPPED → ep_sock_t)
    (ep_sock_feed_event : ep_sock_feed_event_t) (completion_list : Nat → OVERLAPPED_ENTRY)
    (h01 : ∀ p s e, (ep_sock_feed_event p s e).1 ≤ 1)
    (remaining i : Nat) (st : feed_state)
    (hinv : feed_inv ep_sock_from_overlapped completion_list i st) :
    feed_inv ep_sock_from_overlapped completion_list (i + remaining)
      (feed_loop ep_sock_from_overlapped ep_sock_feed_event completion_list remaining i st) := by
  induction remaining generalizing i st with
  | zero => exact hinv
  | succ n ih =>
    simp only [feed_loop]
    have := ih (i + 1) _ (feed_body_inv ep_sock_from_overlapped ep_sock_feed_event
      completion_list h01 i st hinv)
    rw [show i + (n + 1) = i + 1 + n by omega]
    exact this

theorem feed_inv_init (ep_sock_from_overlapped : OVERLAPPED → ep_sock_t)
    (completion_list : Nat → OVERLAPPED_ENTRY) (port_info : ep_port_t)
    (event_list : Nat → epoll_event) :
    feed_inv ep_sock_from_overlapped completion_list 0 ⟨port_info, event_list, 0, []⟩ := by
  simp [feed_inv, emitted_events]

/-- C5: `ep_port_feed_events` with `completion_count = 0` returns `0`, makes no
collaborator call and leaves `event_list` (and the port) as they were; with
`completion_count > max_event_count` it aborts before any collaborator call
instead of returning. -/
theorem C5_feed_events_zero_and_abort (ep_sock_from_overlapped : OVERLAPPED → ep_sock_t)
    (ep_sock_feed_event : ep_sock_feed_event_t) (port_info : ep_port_t)
    (completion_list : Nat → OVERLAPPED_ENTRY) (event_list : Nat → epoll_event)
    (max_event_count : Nat) :
    ep_port_feed_events ep_sock_from_overlapped ep_sock_feed_event port_info completion_list 0
        event_list max_event_count =
      feed_outcome.returned ⟨port_info, event_list, 0, []⟩ ∧
    ∀ completion_count, completion_count > max_event_count →
      ep_port_feed_events ep_sock_from_overlapped ep_sock_feed_event port_info completion_list
          completion_count event_list max_event_count =
        feed_outcome.aborted [] := by
  constructor
  · simp [ep_port_feed_events, feed_loop]
  · intro completion_count h
    simp [ep_port_feed_events, h]

/-- A run of C5: three completion records for a buffer of two events abort. -/
theorem C5_feed_events_zero_and_abort_witness :
    3 > 2 ∧
    ep_port_feed_events example_from_overlapped example_feed_event example_port
        example_completions 3 example_events 2 =
      feed_outcome.aborted [] :=
  ⟨by decide,
    (C5_feed_events_zero_and_abort example_from_overlapped example_feed_event example_port
      example_completions example_events 2).2 3 (by decide)⟩

/-- C6: for `completion_count ≤ max_event_count` and a collaborator that emits
0 or 1 event per call, `ep_port_feed_events` returns; it called
`ep_sock_feed_event` once per record, in batch order, on the socket of the
record; the value returned is the number of calls that emitted an event, at
most `completion_count`; and slot `k` of `event_list` holds the event of the
`k+1`-th emitting call, for every `k` below the value returned. -/
theorem C6_feed_events_count_and_order (ep_sock_from_overlapped : OVERLAPPED → ep_sock_t)
    (ep_sock_feed_event : ep_sock_feed_event_t) (port_info : ep_port_t)
    (completion_list : Nat → OVERLAPPED_ENTRY) (completion_count : Nat)
    (event_list : Nat → epoll_event) (max_event_count : Nat)
    (hle : completion_count ≤ max_event_count)
    (h01 : ∀ p s e, (ep_sock_feed_event p s e).1 ≤ 1) :
    ∃ st, ep_port_feed_events ep_sock_from_overlapped ep_sock_feed_event port_info
          completion_list completion_count event_list max_event_count =
        feed_outcome.returned st ∧
      st.calls.map (fun c => c.i) = List.range completion_count ∧
      (∀ c ∈ st.calls,
        c.sock_info = ep_sock_from_overlapped (completion_list c.i).lpOverlapped) ∧
      st.event_count = (st.calls.filter (fun c => c.emitted == 1)).length ∧
      st.event_count ≤ completion_count ∧
      (∀ k, k < st.event_count →
        (emitted_events st.calls)[k]? = some (st.event_list k)) := by
  have hinv := feed_loop_inv ep_sock_from_overlapped ep_sock_feed_event completion_list h01
    completion_count 0 _ (feed_inv_init ep_sock_from_overlapped completion_list port_info
      event_list)
  rw [Nat.zero_add] at hinv
  obtain ⟨h1, h2, _, h4, h5, h6⟩ := hinv
  refine ⟨_, ?_, h1, h2, ?_, h5, h6⟩
  · simp [ep_port_feed_events, Nat.not_lt.mpr hle]
  · rw [h4]; simp [emitted_events]

/-- A run of C6: three records, the sockets 100, 101, 102; the first and the
third emit.  Two events are returned, in slots 0 and 1, in record order. -/
theorem C6_feed_events_count_and_order_witness :
    3 ≤ 4 ∧
    ∃ st, ep_port_feed_events example_from_overlapped example_feed_event example_port
          example_completions 3 example_events 4 =
        feed_outcome.returned st ∧
      st.calls.map (fun c => c.i) = List.range 3 ∧
      (∀ c ∈ st.calls,
        c.sock_info = example_from_overlapped (example_completions c.i).lpOverlapped) ∧
      st.event_count = (st.calls.filter (fun c => c.emitted == 1)).length ∧
      st.event_count ≤ 3 ∧
      (∀ k, k < st.event_count →
        (emitted_events st.calls)[k]? = some (st.event_list k)) :=
  ⟨by decide,
    C6_feed_events_count_and_order example_from_overlapped example_feed_event example_port
      example_completions 3 example_events 4 (by decide)
      (by intro p s e; unfold example_feed_event; split_ifs <;> simp)⟩

/-- C10: for `completion_count ≤ max_event_count` and a collaborator that
returns 0 or 1, at every iteration `i` of the loop of `ep_port_feed_events` the
running `event_count`, which is the index of the slot handed to
`ep_sock_feed_event`, satisfies `event_count ≤ i < completion_count ≤
max_event_count`; so that index is below `max_event_count`, and the value
returned is at most `max_event_count`. -/
theorem C10_feed_events_slot_in_bounds (ep_sock_from_overlapped : OVERLAPPED → ep_sock_t)
    (ep_sock_feed_event : ep_sock_feed_event_t) (port_info : ep_port_t)
    (completion_list : Nat → OVERLAPPED_ENTRY) (completion_count : Nat)
    (event_list : Nat → epoll_event) (max_event_count : Nat)
    (hle : completion_count ≤ max_event_count)
    (h01 : ∀ p s e, (ep_sock_feed_event p s e).1 ≤ 1) :
    ∃ st, ep_port_feed_events ep_sock_from_overlapped ep_sock_feed_event port_info
          completion_list completion_count event_list max_event_count =
        feed_outcome.returned st ∧
      (∀ c ∈ st.calls,
        c.slot ≤ c.i ∧ c.i < completion_count ∧ c.slot < max_event_count) ∧
      st.event_count ≤ max_event_count := by
  have hinv := feed_loop_inv ep_sock_from_overlapped ep_sock_feed_event completion_list h01
    completion_count 0 _ (feed_inv_init ep_sock_from_overlapped completion_list port_info
      event_list)
  rw [Nat.zero_add] at hinv
  obtain ⟨h1, _, h3, _, h5, _⟩ := hinv
  refine ⟨_, ?_, ?_, le_trans h5 hle⟩
  · simp [ep_port_feed_events, Nat.not_lt.mpr hle]
  · intro c hc
    have hi : c.i ∈ List.range completion_count := by
      rw [← h1]; exact List.mem_map_of_mem (fun c => c.i) hc
    have hi2 := List.mem_range.mp hi
    have hs := (h3 c hc).1
    exact ⟨hs, hi2, by omega⟩

/-- A run of C10: three records for a buffer of three events. -/
theorem C10_feed_events_slot_in_bounds_witness :
    3 ≤ 3 ∧
    ∃ st, ep_port_feed_events example_from_overlapped example_feed_event example_port
          example_completions 3 example_events 3 =
        feed_outcome.returned st ∧
      (∀ c ∈ st.calls, c.slot ≤ c.i ∧ c.i < 3 ∧ c.slot < 3) ∧
      st.event_count ≤ 3 :=
  ⟨by decide,
    C10_feed_events_slot_in_bounds example_from_overlapped example_feed_event example_port
      example_completions 3 example_events 3 (by decide)
      (by intro p s e; unfold example_feed_event; split_ifs <;> simp)⟩

/-! ## Deletion lemmas -/

theorem close_iocp_port (CloseHandle : Option HANDLE → Bool) (port_info : ep_port_t) :
    (_ep_port_close_iocp CloseHandle port_info).2.1 =
      ⟨none, port_info.update_queue, port_info.sock_tree, port_info.poll_group_allocators⟩ := by
  simp only [_ep_port_close_iocp]
  split_ifs <;> rfl

theorem delete_allocators_eq (slots : List (Option poll_group_allocator_t)) :
    ep_port_delete_allocators slots = slots.reduceOption := by
  induction slots with
  | nil => rfl
  | cons a rest ih =>
    cases a with
    | none => simp [ep_port_delete_allocators, ih]
    | some x => simp [ep_port_delete_allocators, ih, List.reduceOption_cons_of_some]

theorem delete_sockets_empties (ep_sock_force_delete : ep_sock_force_delete_t)
    (hfd : force_delete_detaches ep_sock_force_delete)
    (fuel : Nat) (port_info : ep_port_t) (deleted : List ep_sock_t)
    (hfuel : port_info.sock_tree.length ≤ fuel)
    (hnodup : port_info.update_queue.Nodup)
    (hsub : ∀ s ∈ port_info.update_queue, ∃ k, (k, s) ∈ port_info.sock_tree) :
    ∃ r, ep_port_delete_sockets ep_sock_force_delete fuel port_info deleted = some r ∧
      r.1.sock_tree = [] ∧ r.1.update_queue = [] ∧ r.1.iocp = port_info.iocp ∧
      r.1.poll_group_allocators = port_info.poll_group_allocators := by
  induction fuel generalizing port_info deleted with
  | zero =>
    have ht : port_info.sock_tree = [] := List.length_eq_zero.mp (Nat.le_zero.mp hfuel)
    have hqe : port_info.update_queue = [] := by
      apply List.eq_nil_iff_forall_not_mem.mpr
      intro s hs
      obtain ⟨k, hk⟩ := hsub s hs
      rw [ht] at hk
      cases hk
    exact ⟨(port_info, deleted), by simp [ep_port_delete_sockets, ht, tree_root], ht, hqe,
      rfl, rfl⟩
  | succ fuel ih =>
    cases ht : port_info.sock_tree with
    | nil =>
      have hqe : port_info.update_queue = [] := by
        apply List.eq_nil_iff_forall_not_mem.mpr
        intro s hs
        obtain ⟨k, hk⟩ := hsub s hs
        rw [ht] at hk
        cases hk
      exact ⟨(port_info, deleted), by simp [ep_port_delete_sockets, ht, tree_root], ht, hqe,
        rfl, rfl⟩
    | cons e rest =>
      obtain ⟨k, n⟩ := e
      obtain ⟨h1, h2, h3, h4⟩ := hfd port_info n
      have hany : port_info.sock_tree.any (fun e => e.2 == n) = true := by
        rw [ht]; simp
      have htree : (ep_sock_force_delete port_info n).sock_tree =
          port_info.sock_tree.filter (fun e => e.2 != n) := by
        rw [h1]; simp only [ep_port_del_socket, tree_del, hany, if_true]
      have hlen : (ep_sock_force_delete port_info n).sock_tree.length ≤ fuel := by
        rw [htree, ht]
        have hf : ((k, n) :: rest).filter (fun e => e.2 != n) =
            rest.filter (fun e => e.2 != n) := by
          simp [List.filter]
        rw [hf]
        have := List.length_filter_le (fun e : SOCKET × ep_sock_t => e.2 != n) rest
        rw [ht] at hfuel
        simp only [List.length_cons] at hfuel
        omega
      have hq : (ep_sock_force_delete port_info n).update_queue =
          port_info.update_queue.erase n := by
        rw [h2]
        unfold ep_port_clear_socket_update
        split_ifs with hp
        · have hnot : n ∉ port_info.update_queue := by
            intro hm
            simp [(pending_iff_mem port_info n).mpr hm] at hp
          exact (List.erase_of_not_mem hnot).symm
        · rfl
      have hnodup2 : (ep_sock_force_delete port_info n).update_queue.Nodup := by
        rw [hq]; exact List.Nodup.erase _ hnodup
      have hsub2 : ∀ s ∈ (ep_sock_force_delete port_info n).update_queue,
          ∃ k, (k, s) ∈ (ep_sock_force_delete port_info n).sock_tree := by
        intro s hs
        rw [hq] at hs
        have hs2 := (List.Nodup.mem_erase_iff hnodup).mp hs
        obtain ⟨k2, hk2⟩ := hsub s hs2.2
        refine ⟨k2, ?_⟩
        rw [htree]
        simp only [List.mem_filter, bne_iff_ne, ne_eq]
        exact ⟨hk2, hs2.1⟩
      obtain ⟨r, hr, hr1, hr2, hr3, hr4⟩ :=
        ih (ep_sock_force_delete port_info n) (deleted ++ [n]) hlen hnodup2 hsub2
      refine ⟨r, ?_, hr1, hr2, by rw [hr3, h3], by rw [hr4, h4]⟩
      simp only [ep_port_delete_sockets, ht, tree_root]
      exact hr

/-- C7: let `ep_sock_force_delete` detach its socket from the registry and the
update queue.  For every port whose update queue holds, without repetition,
only registered sockets, and whatever `CloseHandle` answers, `ep_port_delete`
returns (fuel equal to the number of registered sockets is enough) and the
value is `0`; the registry and the update queue are empty and the handle field
is `NULL`; `CloseHandle` was called once on the handle when it was still open
and not at all when it was already closed; every non-null allocator slot was
passed to `poll_group_allocator_delete` once, in slot order; and the port was
freed. -/
theorem C7_delete_tears_down (CloseHandle : Option HANDLE → Bool)
    (ep_sock_force_delete : ep_sock_force_delete_t) (port_info : ep_port_t)
    (hfd : force_delete_detaches ep_sock_force_delete)
    (hnodup : port_info.update_queue.Nodup)
    (hsub : ∀ s ∈ port_info.update_queue, ∃ k, (k, s) ∈ port_info.sock_tree)
    (fuel : Nat) (hfuel : port_info.sock_tree.length ≤ fuel) :
    ∃ r, ep_port_delete CloseHandle ep_sock_force_delete fuel port_info = some r ∧
      r.result = 0 ∧
      r.port_info.sock_tree = [] ∧
      r.port_info.update_queue = [] ∧
      r.port_info.iocp = none ∧
      r.closed = (if port_info.iocp = none then [] else [port_info.iocp]) ∧
      r.deleted_allocators = port_info.poll_group_allocators.reduceOption ∧
      (∀ a, r.deleted_allocators.count a = port_info.poll_group_allocators.count (some a)) ∧
      r.freed = true := by
  have hcount : ∀ (slots : List (Option poll_group_allocator_t)) (a : poll_group_allocator_t),
      slots.reduceOption.count a = slots.count (some a) := by
    intro slots a
    induction slots with
    | nil => rfl
    | cons x rest ih =>
      cases x with
      | none => simp [List.reduceOption_cons_of_none, ih]
      | some y =>
        simp only [List.reduceOption_cons_of_some, List.count_cons, ih, beq_iff_eq,
          Option.some.injEq]
  by_cases hio : port_info.iocp = none
  · obtain ⟨r, hr, hr1, hr2, hr3, hr4⟩ :=
      delete_sockets_empties ep_sock_force_delete hfd fuel port_info [] hfuel hnodup hsub
    refine ⟨⟨0, r.1, [], r.2, ep_port_delete_allocators r.1.poll_group_allocators, true⟩,
      ?_, rfl, hr1, hr2, by rw [hr3, hio], by simp [hio], ?_, ?_, rfl⟩
    · simp only [ep_port_delete, hio, ne_eq, not_true_eq_false, if_false, hr]
    · simp only [delete_allocators_eq, hr4]
    · intro a
      simp only [delete_allocators_eq, hr4, hcount]
  · obtain ⟨r, hr, hr1, hr2, hr3, hr4⟩ :=
      delete_sockets_empties ep_sock_force_delete hfd fuel
        (_ep_port_close_iocp CloseHandle port_info).2.1 []
        (by rw [close_iocp_port]; exact hfuel)
        (by rw [close_iocp_port]; exact hnodup)
        (by rw [close_iocp_port]; exact hsub)
    have hio2 : (_ep_port_close_iocp CloseHandle port_info).2.1.iocp = none := by
      rw [close_iocp_port]
    have hal : (_ep_port_close_iocp CloseHandle port_info).2.1.poll_group_allocators =
        port_info.poll_group_allocators := by
      rw [close_iocp_port]
    refine ⟨⟨0, r.1, [port_info.iocp], r.2,
      ep_port_delete_allocators r.1.poll_group_allocators, true⟩,
      ?_, rfl, hr1, hr2, by rw [hr3, hio2], by simp [hio], ?_, ?_, rfl⟩
    · simp only [ep_port_delete, hio, ne_eq, not_false_eq_true, if_true, hr]
    · simp only [delete_allocators_eq, hr4, hal]
    · intro a
      simp only [delete_allocators_eq, hr4, hal, hcount]

theorem example_force_delete_detaches : force_delete_detaches example_force_delete := by
  intro p s
  refine ⟨?_, ?_, ?_, ?_⟩ <;>
    simp only [example_force_delete, ep_port_clear_socket_update, ep_port_del_socket,
      ep_port_is_socket_update_pending] <;>
    split_ifs <;> rfl

/-- A run of C7: a port with three registered sockets, all enqueued, whose
handle cannot be closed, is deleted with three units of fuel. -/
theorem C7_delete_tears_down_witness :
    ∃ r, ep_port_delete (fun _ => false) example_force_delete 3 example_port_busy = some r ∧
      r.result = 0 ∧
      r.port_info.sock_tree = [] ∧
      r.port_info.update_queue = [] ∧
      r.port_info.iocp = none ∧
      r.closed = (if example_port_busy.iocp = none then [] else [example_port_busy.iocp]) ∧
      r.deleted_allocators = example_port_busy.poll_group_allocators.reduceOption ∧
      (∀ a, r.deleted_allocators.count a =
        example_port_busy.poll_group_allocators.count (some a)) ∧
      r.freed = true :=
  C7_delete_tears_down (fun _ => false) example_force_delete example_port_busy
    example_force_delete_detaches (by decide)
    (by
      intro s hs
      have h : s = 5 ∨ s = 6 ∨ s = 7 := by simpa [example_port_busy] using hs
      rcases h with h | h | h <;> subst h
      · exact ⟨3, by decide⟩
      · exact ⟨4, by decide⟩
      · exact ⟨9, by decide⟩)
    3 (by decide)

/-! ## Poll-group lemmas -/

/-- One `ep_port_acquire_poll_group` call with an in-range `protocol_id`: it
returns; only the slot of `protocol_id` can change; a slot that holds an
allocator is used as it is, without a call of `poll_group_allocator_new`; an
empty slot is filled with what `poll_group_allocator_new` returns, and that
pointer is handed to `poll_group_acquire`. -/
theorem acquire_step {ε : Type} (C : poll_group_collab ε) (env : ε) (port_info : ep_port_t)
    (protocol_id : Nat) (protocol_info : WSAPROTOCOL_INFOW)
    (hid : protocol_id < port_info.poll_group_allocators.length) :
    ∃ r, ep_port_acquire_poll_group C env port_info protocol_id protocol_info = some r ∧
      r.port_info.poll_group_allocators.length = port_info.poll_group_allocators.length ∧
      r.port_info.iocp = port_info.iocp ∧
      r.port_info.update_queue = port_info.update_queue ∧
      r.port_info.sock_tree = port_info.sock_tree ∧
      (∀ i, i ≠ protocol_id →
        r.port_info.poll_group_allocators[i]? = port_info.poll_group_allocators[i]?) ∧
      (∀ a, port_info.poll_group_allocators[protocol_id]? = some (some a) →
        r.new_called = false ∧ r.acquired_from = some a ∧ r.port_info = port_info ∧
        r.env = (C.poll_group_acquire env (some a)).2 ∧
        r.poll_group = (C.poll_group_acquire env (some a)).1) ∧
      (port_info.poll_group_allocators[protocol_id]? = some none →
        r.new_called = true ∧
        r.acquired_from = (C.poll_group_allocator_new env port_info protocol_info).1 ∧
        r.port_info.poll_group_allocators[protocol_id]? =
          some (C.poll_group_allocator_new env port_info protocol_info).1 ∧
        r.poll_group =
          (C.poll_group_acquire (C.poll_group_allocator_new env port_info protocol_info).2
            (C.poll_group_allocator_new env port_info protocol_info).1).1) := by
  have hsome : ∃ x, port_info.poll_group_allocators[protocol_id]? = some x :=
    ⟨_, List.getElem?_eq_getElem hid⟩
  obtain ⟨x, hx⟩ := hsome
  cases x with
  | none =>
    have hget : port_info.poll_group_allocators.getD protocol_id none = none := by
      simp [List.getD_eq_getElem?_getD, hx]
    have heq : ep_port_acquire_poll_group C env port_info protocol_id protocol_info =
        some ⟨(C.poll_group_acquire (C.poll_group_allocator_new env port_info protocol_info).2
            (C.poll_group_allocator_new env port_info protocol_info).1).1,
          ⟨port_info.iocp, port_info.update_queue, port_info.sock_tree,
            port_info.poll_group_allocators.set protocol_id
              (C.poll_group_allocator_new env port_info protocol_info).1⟩,
          (C.poll_group_acquire (C.poll_group_allocator_new env port_info protocol_info).2
            (C.poll_group_allocator_new env port_info protocol_info).1).2,
          true, (C.poll_group_allocator_new env port_info protocol_info).1⟩ := by
      simp only [ep_port_acquire_poll_group, _ep_port_get_poll_group_allocator, hid, if_true,
        hget]
    refine ⟨_, heq, ?_, rfl, rfl, rfl, ?_, ?_, ?_⟩
    · simp
    · intro i hi
      simp [List.getElem?_set, Ne.symm hi]
    · intro a ha
      rw [hx] at ha
      cases ha
    · intro _
      refine ⟨rfl, rfl, ?_, rfl⟩
      simp [List.getElem?_set, hid]
  | some a =>
    have hget : port_info.poll_group_allocators.getD protocol_id none = some a := by
      simp [List.getD_eq_getElem?_getD, hx]
    have heq : ep_port_acquire_poll_group C env port_info protocol_id protocol_info =
        some ⟨(C.poll_group_acquire env (some a)).1, port_info,
          (C.poll_group_acquire env (some a)).2, false, some a⟩ := by
      simp only [ep_port_acquire_poll_group, _ep_port_get_poll_group_allocator, hid, if_true,
        hget]
    refine ⟨_, heq, rfl, rfl, rfl, rfl, fun _ _ => rfl, ?_, ?_⟩
    · intro b hb
      rw [hx] at hb
      simp only [Option.some.injEq] at hb
      subst hb
      exact ⟨rfl, rfl, rfl, rfl, rfl⟩
    · intro h
      rw [hx] at h
      cases h

/-- A sequence of in-range acquisitions returns; an allocator slot that holds an
allocator keeps it, and the slots of the protocol ids that are not acquired are
untouched. -/
theorem acquire_run_keeps {ε : Type} (C : poll_group_collab ε) (n : Nat)
    (l : List (Nat × WSAPROTOCOL_INFOW)) (env : ε) (port_info : ep_port_t)
    (hlen : port_info.poll_group_allocators.length = n) (hin : ∀ c ∈ l, c.1 < n) :
    ∃ env2 port2, acquire_run C env port_info l = some (env2, port2) ∧
      port2.poll_group_allocators.length = n ∧
      (∀ (i : Nat) (a : poll_group_allocator_t),
        port_info.poll_group_allocators[i]? = some (some a) →
        port2.poll_group_allocators[i]? = some (some a)) ∧
      (∀ i : Nat, i ∉ l.map Prod.fst →
        port2.poll_group_allocators[i]? = port_info.poll_group_allocators[i]?) := by
  induction l generalizing env port_info with
  | nil => exact ⟨env, port_info, rfl, hlen, fun _ _ h => h, fun _ _ => rfl⟩
  | cons c rest ih =>
    obtain ⟨id, info⟩ := c
    have hid : id < port_info.poll_group_allocators.length := by
      rw [hlen]; exact hin (id, info) (List.mem_cons_self _ _)
    obtain ⟨r, hr, hl, _, _, _, hother, hsome, _⟩ := acquire_step C env port_info id info hid
    obtain ⟨env2, port2, hrun, hlen2, hkeep, hlift⟩ :=
      ih r.env r.port_info (by rw [hl, hlen]) (fun c hc => hin c (List.mem_cons_of_mem _ hc))
    refine ⟨env2, port2, by simp only [acquire_run, hr, hrun], hlen2, ?_, ?_⟩
    · intro i a hia
      apply hkeep
      by_cases hi : i = id
      · subst hi
        rw [(hsome a hia).2.2.1]; exact hia
      · rw [hother i hi]; exact hia
    · intro i hi
      simp only [List.map_cons, List.mem_cons, not_or] at hi
      rw [hlift i hi.2, hother i hi.1]

/-- When `poll_group_allocator_new` succeeds, after a sequence of in-range
acquisitions the slot of every acquired protocol id holds an allocator. -/
theorem acquire_run_fills {ε : Type} (C : poll_group_collab ε)
    (hsucc : ∀ e p i, (C.poll_group_allocator_new e p i).1 ≠ none) (n : Nat)
    (l : List (Nat × WSAPROTOCOL_INFOW)) (env : ε) (port_info : ep_port_t)
    (hlen : port_info.poll_group_allocators.length = n) (hin : ∀ c ∈ l, c.1 < n)
    (env2 : ε) (port2 : ep_port_t) (hrun : acquire_run C env port_info l = some (env2, port2))
    (i : Nat) (hi : i ∈ l.map Prod.fst) :
    ∃ a, port2.poll_group_allocators[i]? = some (some a) := by
  induction l generalizing env port_info with
  | nil => simp at hi
  | cons c rest ih =>
    obtain ⟨id, info⟩ := c
    have hid : id < port_info.poll_group_allocators.length := by
      rw [hlen]; exact hin (id, info) (List.mem_cons_self _ _)
    obtain ⟨r, hr, hl, _, _, _, hother, hsome, hnone⟩ :=
      acquire_step C env port_info id info hid
    simp only [acquire_run, hr] at hrun
    have hin2 : ∀ c ∈ rest, c.1 < n := fun c hc => hin c (List.mem_cons_of_mem _ hc)
    by_cases hrest : i ∈ rest.map Prod.fst
    · exact ih r.env r.port_info (by rw [hl, hlen]) hin2 hrun hrest
    · have hi2 : i = id := by
        simp only [List.map_cons, List.mem_cons] at hi
        rcases hi with h | h
        · exact h
        · exact absurd h hrest
      subst hi2
      obtain ⟨env3, port3, hrun3, _, hkeep, _⟩ :=
        acquire_run_keeps C n rest r.env r.port_info (by rw [hl, hlen]) hin2
      rw [hrun] at hrun3
      simp only [Option.some.injEq, Prod.mk.injEq] at hrun3
      obtain ⟨_, hp⟩ := hrun3
      subst hp
      have hx : ∃ x, port_info.poll_group_allocators[i]? = some x :=
        ⟨_, List.getElem?_eq_getElem hid⟩
      obtain ⟨x, hx⟩ := hx
      cases x with
      | some a =>
        refine ⟨a, hkeep i a ?_⟩
        rw [(hsome a hx).2.2.1]; exact hx
      | none =>
        obtain ⟨_, _, hslot, _⟩ := hnone hx
        cases hnew : (C.poll_group_allocator_new env port_info info).1 with
        | none => exact absurd hnew (hsucc _ _ _)
        | some a =>
          refine ⟨a, hkeep i a ?_⟩
          rw [hslot, hnew]

/-- C8: on a freshly created port take any sequence `pre` of in-range
acquisitions followed by an acquisition for an in-range `protocol_id`.  Both
return.  The acquisition changes no slot of another protocol id.  Once the slot
of `protocol_id` holds an allocator `a`, this acquisition has delegated to `a`,
and after any further in-range acquisitions `later` another acquisition for
`protocol_id` calls `poll_group_allocator_new` no more, delegates to the same
`a` and leaves the port as it is: the port never holds a second allocator for
the id.  And when `poll_group_allocator_new` succeeds, the acquisition creates
the allocator exactly when it is the first one for `protocol_id`, and the slot
holds an allocator afterwards. -/
theorem C8_one_allocator_per_protocol {ε : Type} (C : poll_group_collab ε)
    (env : ε) (array_count : Nat) (iocp : Option HANDLE) (port_info : ep_port_t)
    (hnew : ep_port_new array_count true iocp = some port_info)
    (pre : List (Nat × WSAPROTOCOL_INFOW)) (protocol_id : Nat)
    (protocol_info : WSAPROTOCOL_INFOW)
    (hpre : ∀ c ∈ pre, c.1 < array_count) (hid : protocol_id < array_count) :
    ∃ env1 port1 r,
      acquire_run C env port_info pre = some (env1, port1) ∧
      ep_port_acquire_poll_group C env1 port1 protocol_id protocol_info = some r ∧
      (∀ i : Nat, i ≠ protocol_id →
        r.port_info.poll_group_allocators[i]? = port1.poll_group_allocators[i]?) ∧
      (∀ a, r.port_info.poll_group_allocators[protocol_id]? = some (some a) →
        r.acquired_from = some a ∧
        ∀ later info2, (∀ c ∈ later, c.1 < array_count) →
          ∃ env2 port2 r2,
            acquire_run C r.env r.port_info later = some (env2, port2) ∧
            ep_port_acquire_poll_group C env2 port2 protocol_id info2 = some r2 ∧
            r2.new_called = false ∧ r2.acquired_from = some a ∧ r2.port_info = port2) ∧
      ((∀ e p i, (C.poll_group_allocator_new e p i).1 ≠ none) →
        (r.new_called = true ↔ protocol_id ∉ pre.map Prod.fst) ∧
        ∃ a, r.port_info.poll_group_allocators[protocol_id]? = some (some a)) := by
  have hfresh : port_info.poll_group_allocators = List.replicate array_count none := by
    simp only [ep_port_new, if_true, Option.some.injEq] at hnew
    rw [← hnew]
  have hlen : port_info.poll_group_allocators.length = array_count := by
    rw [hfresh]; simp
  obtain ⟨env1, port1, hrun, hlen1, _, hlift⟩ :=
    acquire_run_keeps C array_count pre env port_info hlen hpre
  have hid1 : protocol_id < port1.poll_group_allocators.length := by rw [hlen1]; exact hid
  obtain ⟨r, hr, hl, _, _, _, hother, hsome, hnone⟩ :=
    acquire_step C env1 port1 protocol_id protocol_info hid1
  have hbefore : ∃ x, port1.poll_group_allocators[protocol_id]? = some x :=
    ⟨_, List.getElem?_eq_getElem hid1⟩
  obtain ⟨x, hx⟩ := hbefore
  refine ⟨env1, port1, r, hrun, hr, hother, ?_, ?_⟩
  · intro a ha
    constructor
    · cases x with
      | none =>
        obtain ⟨_, h2, h3, _⟩ := hnone hx
        rw [h3] at ha
        simp only [Option.some.injEq] at ha
        rw [h2, ha]
      | some b =>
        obtain ⟨_, h2, h3, _⟩ := hsome b hx
        rw [h3, hx] at ha
        simp only [Option.some.injEq] at ha
        rw [h2, ha]
    · intro later info2 hin
      obtain ⟨env2, port2, hrun2, hlen2, hkeep2, _⟩ :=
        acquire_run_keeps C array_count later r.env r.port_info (by rw [hl, hlen1]) hin
      obtain ⟨r2, hr2, _, _, _, _, _, hsome2, _⟩ :=
        acquire_step C env2 port2 protocol_id info2 (by rw [hlen2]; exact hid)
      obtain ⟨h1, h2, h3, _⟩ := hsome2 a (hkeep2 protocol_id a ha)
      exact ⟨env2, port2, r2, hrun2, hr2, h1, h2, h3⟩
  · intro hsucc
    by_cases hmem : protocol_id ∈ pre.map Prod.fst
    · obtain ⟨a, ha⟩ := acquire_run_fills C hsucc array_count pre env port_info hlen hpre
        env1 port1 hrun protocol_id hmem
      obtain ⟨h1, _, h3, _⟩ := hsome a ha
      refine ⟨by simp [h1, hmem], a, ?_⟩
      rw [h3]; exact ha
    · have hslot : port1.poll_group_allocators[protocol_id]? = some none := by
        rw [hlift protocol_id hmem, hfresh]
        simp [List.getElem?_replicate, hid]
      obtain ⟨h1, _, h3, _⟩ := hnone hslot
      refine ⟨by simp [h1, hmem], ?_⟩
      cases hcreated : (C.poll_group_allocator_new env1 port1 protocol_info).1 with
      | none => exact absurd hcreated (hsucc _ _ _)
      | some a => exact ⟨a, by rw [h3, hcreated]⟩

/-- The collaborator `example_collab` always creates its allocator. -/
theorem example_collab_succeeds (e : Nat) (p : ep_port_t) (i : WSAPROTOCOL_INFOW) :
    (example_collab.poll_group_allocator_new e p i).1 ≠ none := by
  simp [example_collab]

/-- A run of C8: on a fresh port with two slots, after acquisitions for the
protocol ids 0, 1, 0, an acquisition for protocol id 1 creates no allocator,
changes no other slot, and delegates to the allocator its slot holds. -/
theorem C8_one_allocator_per_protocol_witness :
    ep_port_new 2 true (some 1) = some example_port ∧
    (∀ c ∈ [(0, 7), (1, 8), (0, 7)], c.1 < 2) ∧
    ∃ env1 port1 r,
      acquire_run example_collab 0 example_port [(0, 7), (1, 8), (0, 7)] =
        some (env1, port1) ∧
      ep_port_acquire_poll_group example_collab env1 port1 1 8 = some r ∧
      (∀ i : Nat, i ≠ 1 →
        r.port_info.poll_group_allocators[i]? = port1.poll_group_allocators[i]?) ∧
      r.new_called = false ∧
      ∃ a, r.port_info.poll_group_allocators[1]? = some (some a) ∧
        r.acquired_from = some a := by
  obtain ⟨env1, port1, r, h1, h2, h3, h4, h5⟩ :=
    C8_one_allocator_per_protocol example_collab 0 2 (some 1) example_port rfl
      [(0, 7), (1, 8), (0, 7)] 1 8 (by decide) (by decide)
  obtain ⟨h6, a, h7⟩ := h5 example_collab_succeeds
  refine ⟨rfl, by decide, env1, port1, r, h1, h2, h3, ?_, a, h7, (h4 a h7).1⟩
  cases hb : r.new_called with
  | false => rfl
  | true => exact absurd (h6.mp hb) (by decide)

/-- C9 on the code: when the slot of an in-range `protocol_id` is empty and
`poll_group_allocator_new` returns `NULL`, `ep_port_acquire_poll_group` leaves
the port as it was, but it does not return `NULL` by itself: it calls
`poll_group_acquire` with the `NULL` allocator and returns what that call
returns. -/
theorem C9_acquire_hands_over_null_allocator {ε : Type} (C : poll_group_collab ε) (env : ε)
    (port_info : ep_port_t) (protocol_id : Nat) (protocol_info : WSAPROTOCOL_INFOW)
    (hid : protocol_id < port_info.poll_group_allocators.length)
    (hslot : port_info.poll_group_allocators[protocol_id]? = some none)
    (hfail : (C.poll_group_allocator_new env port_info protocol_info).1 = none) :
    ∃ r, ep_port_acquire_poll_group C env port_info protocol_id protocol_info = some r ∧
      r.new_called = true ∧
      r.acquired_from = none ∧
      r.poll_group =
        (C.poll_group_acquire (C.poll_group_allocator_new env port_info protocol_info).2
          none).1 ∧
      r.port_info = port_info := by
  obtain ⟨r, hr, hl, h1, h2, h3, hother, _, hnone⟩ :=
    acquire_step C env port_info protocol_id protocol_info hid
  obtain ⟨h4, h5, h6, h7⟩ := hnone hslot
  rw [hfail] at h5 h6
  refine ⟨r, hr, h4, h5, by rw [h7, hfail], ?_⟩
  have hal : r.port_info.poll_group_allocators = port_info.poll_group_allocators := by
    apply List.ext_getElem?
    intro i
    by_cases hi : i = protocol_id
    · subst hi; rw [h6, hslot]
    · exact hother i hi
  cases hrp : r.port_info with
  | mk a b c d =>
    cases hp : port_info with
    | mk a2 b2 c2 d2 =>
      rw [hrp, hp] at h1 h2 h3 hal
      simp only at h1 h2 h3 hal
      rw [h1, h2, h3, hal]

/-- A run of C9: with an empty slot 0 and an allocator that cannot be created,
the acquisition calls `poll_group_acquire` on `NULL` and returns the poll group
`5000` that this collaborator computes from the `NULL` address. -/
theorem C9_acquire_hands_over_null_allocator_witness :
    ∃ r, ep_port_acquire_poll_group exhausted_collab 0 example_port 0 7 = some r ∧
      r.new_called = true ∧
      r.acquired_from = none ∧
      r.poll_group = some 5000 ∧
      r.port_info = example_port :=
  C9_acquire_hands_over_null_allocator exhausted_collab 0 example_port 0 7
    (by decide) (by decide) rfl

end Wepoll
